import Mathlib

/-!
Verification of the arguzz mutation-target resolution engine.

This file gives a shallow embedding of the cross-trace correlation engine:
the three RISC-V instruction decoders (a4/common/insn_decode.py,
a4/core/insn_decode.py, and the lookup table of a4/find_mutation_target.py),
the step-offset estimator and step locator (a4/arguzz_dependent/step_mapper.py),
and the per-kind mutation-target resolvers (standalone/mutations and
arguzz_dependent/mutations).  Python integers are modelled as Nat (instruction
words, always non-negative, manipulated bitwise) or Int (trace step / pc
arithmetic, which subtracts).  Python functions that raise ValueError are
modelled with Except; functions returning Optional values return Option.
-/

/-- Decoded instruction record of a4/common/insn_decode.py and
a4/core/insn_decode.py (dataclass DecodedInsn). -/
structure DecodedInsn where
  kind : Nat
  major : Nat
  minor : Nat
  name : String
  opcode : Nat
  func3 : Nat
  func7 : Option Nat
  deriving Repr, DecidableEq

namespace Common

/-- INSN_KIND_NAMES table of a4/common/insn_decode.py. -/
def INSN_KIND_NAMES : List (Nat × String) :=
  [(0, "Add"), (1, "Sub"), (2, "Xor"), (3, "Or"), (4, "And"), (5, "Slt"),
   (6, "SltU"), (7, "AddI"),
   (8, "XorI"), (9, "OrI"), (10, "AndI"), (11, "SltI"), (12, "SltIU"),
   (13, "Beq"), (14, "Bne"), (15, "Blt"),
   (16, "Bge"), (17, "BltU"), (18, "BgeU"), (19, "Jal"), (20, "JalR"),
   (21, "Lui"), (22, "Auipc"), (23, "Mul"),
   (24, "MulH"), (25, "MulHSU"), (26, "MulHU"), (27, "Sll"), (28, "Srl"),
   (29, "Sra"), (30, "SllI"), (31, "SrlI"),
   (32, "SraI"), (33, "Div"), (34, "DivU"), (35, "Rem"), (36, "RemU"),
   (37, "Lb"), (38, "Lh"), (39, "Lbu"),
   (40, "Lhu"), (41, "Lw_"), (42, "Lw"), (43, "Sb"), (44, "Sh"),
   (45, "Sw_"), (46, "Sw"), (47, "?47"),
   (48, "?48"), (49, "?49"), (50, "Sw2"), (51, "Fence"), (52, "Eany"),
   (53, "Mret"), (54, "?54"), (55, "?55"),
   (56, "?56"), (57, "Invalid")]

/-- Kind selection of a4/common/insn_decode.py decode_insn_word, split out as a
function of the decoded fields plus the raw word (the SYSTEM branch of the
source compares the whole word).  List indexing LIST[func3] in the source is
total because func3 is masked to three bits; getD with default 0 agrees with
it on every index below eight. -/
def kind_of (opcode func3 func7 word : Nat) : Option Nat :=
  if opcode = 0x33 then
    if func7 = 0x00 then some (List.getD [0, 27, 2, 6, 3, 28, 5, 4] func3 0)
    else if func7 = 0x20 then List.lookup func3 [(0, 1), (5, 29)]
    else if func7 = 0x01 then
      some (List.getD [23, 24, 25, 26, 33, 34, 35, 36] func3 0)
    else none
  else if opcode = 0x13 then
    if func3 = 0x0 then some 7
    else if func3 = 0x1 ∧ func7 = 0x00 then some 30
    else if func3 = 0x2 then some 11
    else if func3 = 0x3 then some 12
    else if func3 = 0x4 then some 8
    else if func3 = 0x5 then
      if func7 = 0x00 then some 31
      else if func7 = 0x20 then some 32
      else none
    else if func3 = 0x6 then some 9
    else if func3 = 0x7 then some 10
    else none
  else if opcode = 0x03 then
    List.lookup func3 [(0, 37), (1, 38), (2, 42), (4, 39), (5, 40)]
  else if opcode = 0x23 then
    List.lookup func3 [(0, 43), (1, 44), (2, 50)]
  else if opcode = 0x63 then
    List.lookup func3 [(0, 13), (1, 14), (4, 15), (5, 16), (6, 17), (7, 18)]
  else if opcode = 0x6f then some 19
  else if opcode = 0x67 then some 20
  else if opcode = 0x37 then some 21
  else if opcode = 0x17 then some 22
  else if opcode = 0x0f then some 51
  else if opcode = 0x73 then
    if word = 0x00000073 then some 52
    else if word = 0x30200073 then some 53
    else none
  else none

/-- decode_insn_word of a4/common/insn_decode.py. -/
def decode_insn_word (word : Nat) : Option DecodedInsn :=
  let opcode := word &&& 0x7f
  let func3 := (word >>> 12) &&& 0x7
  let func7 := (word >>> 25) &&& 0x7f
  match kind_of opcode func3 func7 word with
  | none => none
  | some kind =>
    some { kind := kind, major := kind / 8, minor := kind % 8,
           name := (INSN_KIND_NAMES.lookup kind).getD ("?" ++ toString kind),
           opcode := opcode, func3 := func3,
           func7 := if opcode = 0x33 then some func7 else none }

/-- kind_to_major_minor of a4/common/insn_decode.py. -/
def kind_to_major_minor (kind : Nat) : Nat × Nat :=
  (kind / 8, kind % 8)

/-- major_minor_to_kind of a4/common/insn_decode.py. -/
def major_minor_to_kind (major minor : Nat) : Nat :=
  major * 8 + minor

end Common

namespace Core

/-- INSN_KIND_NAMES table of a4/core/insn_decode.py. -/
def INSN_KIND_NAMES : List (Nat × String) :=
  [(0, "Add"), (1, "Sub"), (2, "Xor"), (3, "Or"), (4, "And"), (5, "Slt"),
   (6, "SltU"), (7, "AddI"),
   (8, "XorI"), (9, "OrI"), (10, "AndI"), (11, "SltI"), (12, "SltIU"),
   (13, "Beq"), (14, "Bne"), (15, "Blt"),
   (16, "Bge"), (17, "BltU"), (18, "BgeU"), (19, "Jal"), (20, "JalR"),
   (21, "Lui"), (22, "Auipc"),
   (24, "Sll"), (25, "SllI"), (26, "Mul"), (27, "MulH"), (28, "MulHSU"),
   (29, "MulHU"),
   (32, "Srl"), (33, "Sra"), (34, "SrlI"), (35, "SraI"), (36, "Div"),
   (37, "DivU"), (38, "Rem"), (39, "RemU"),
   (40, "Lb"), (41, "Lh"), (42, "Lw"), (43, "LbU"), (44, "LhU"),
   (48, "Sb"), (49, "Sh"), (50, "Sw"),
   (56, "Eany"), (57, "Mret"),
   (255, "Invalid")]

/-- Kind selection of a4/core/insn_decode.py decode_insn_word, split out as a
function of the decoded fields plus the raw word (the SYSTEM branch of the
source compares the whole word). -/
def kind_of (opcode func3 func7 word : Nat) : Option Nat :=
  if opcode = 0x33 then
    if func7 = 0x00 then some (List.getD [0, 24, 5, 6, 2, 32, 3, 4] func3 0)
    else if func7 = 0x20 then List.lookup func3 [(0, 1), (5, 33)]
    else if func7 = 0x01 then
      some (List.getD [26, 27, 28, 29, 36, 37, 38, 39] func3 0)
    else none
  else if opcode = 0x13 then
    if func3 = 0x0 then some 7
    else if func3 = 0x1 ∧ func7 = 0x00 then some 25
    else if func3 = 0x2 then some 11
    else if func3 = 0x3 then some 12
    else if func3 = 0x4 then some 8
    else if func3 = 0x5 then
      if func7 = 0x00 then some 34
      else if func7 = 0x20 then some 35
      else none
    else if func3 = 0x6 then some 9
    else if func3 = 0x7 then some 10
    else none
  else if opcode = 0x03 then
    List.lookup func3 [(0, 40), (1, 41), (2, 42), (4, 43), (5, 44)]
  else if opcode = 0x23 then
    List.lookup func3 [(0, 48), (1, 49), (2, 50)]
  else if opcode = 0x63 then
    List.lookup func3 [(0, 13), (1, 14), (4, 15), (5, 16), (6, 17), (7, 18)]
  else if opcode = 0x6f then some 19
  else if opcode = 0x67 then some 20
  else if opcode = 0x37 then some 21
  else if opcode = 0x17 then some 22
  else if opcode = 0x73 then
    if word = 0x00000073 then some 56
    else if word = 0x30200073 then some 57
    else none
  else none

/-- decode_insn_word of a4/core/insn_decode.py.  Unlike the common module the
FENCE opcode 0x0f has no branch here, so FENCE words decode to none. -/
def decode_insn_word (word : Nat) : Option DecodedInsn :=
  let opcode := word &&& 0x7f
  let func3 := (word >>> 12) &&& 0x7
  let func7 := (word >>> 25) &&& 0x7f
  match kind_of opcode func3 func7 word with
  | none => none
  | some kind =>
    some { kind := kind, major := kind / 8, minor := kind % 8,
           name := (INSN_KIND_NAMES.lookup kind).getD ("?" ++ toString kind),
           opcode := opcode, func3 := func3,
           func7 := if opcode = 0x33 then some func7 else none }

/-- kind_to_major_minor of a4/core/insn_decode.py. -/
def kind_to_major_minor (kind : Nat) : Nat × Nat :=
  (kind / 8, kind % 8)

/-- major_minor_to_kind of a4/core/insn_decode.py. -/
def major_minor_to_kind (major minor : Nat) : Nat :=
  major * 8 + minor

end Core

namespace Fmt

/-- Decoded RISC-V instruction fields (dataclass DecodedInstruction of
a4/find_mutation_target.py, classmethod from_word). -/
structure DecodedInstruction where
  opcode : Nat
  rd : Nat
  func3 : Nat
  rs1 : Nat
  rs2 : Nat
  func7 : Nat
  imm_i : Nat
  imm_s : Nat
  imm_b : Nat
  imm_u : Nat
  imm_j : Nat
  deriving Repr, DecidableEq

/-- DecodedInstruction.from_word of a4/find_mutation_target.py. -/
def DecodedInstruction.from_word (word : Nat) : DecodedInstruction :=
  { opcode := (word >>> 0) &&& 0x7f,
    rd := (word >>> 7) &&& 0x1f,
    func3 := (word >>> 12) &&& 0x07,
    rs1 := (word >>> 15) &&& 0x1f,
    rs2 := (word >>> 20) &&& 0x1f,
    func7 := (word >>> 25) &&& 0x7f,
    imm_i := (word >>> 20) &&& 0xfff,
    imm_s := ((word >>> 7) &&& 0x1f) ||| (((word >>> 25) &&& 0x7f) <<< 5),
    imm_b := ((((word >>> 8) &&& 0xf) <<< 1) ||| (((word >>> 25) &&& 0x3f) <<< 5)) |||
             ((((word >>> 7) &&& 0x1) <<< 11) ||| (((word >>> 31) &&& 0x1) <<< 12)),
    imm_u := (word >>> 12) &&& 0xfffff,
    imm_j := ((((word >>> 21) &&& 0x3ff) <<< 1) ||| (((word >>> 20) &&& 0x1) <<< 11)) |||
             ((((word >>> 12) &&& 0xff) <<< 12) ||| (((word >>> 31) &&& 0x1) <<< 20)) }

/-- INSN_KIND_MAP of a4/find_mutation_target.py: the (opcode, func3, func7)
dictionary, with none standing in for the Python None key components. -/
def INSN_KIND_MAP : List ((Nat × Option Nat × Option Nat) × Nat) :=
  [((0x33, some 0, some 0x00), 0),
   ((0x33, some 0, some 0x20), 1),
   ((0x33, some 4, some 0x00), 2),
   ((0x33, some 6, some 0x00), 3),
   ((0x33, some 7, some 0x00), 4),
   ((0x33, some 2, some 0x00), 5),
   ((0x33, some 3, some 0x00), 6),
   ((0x13, some 0, none), 7),
   ((0x13, some 4, none), 8),
   ((0x13, some 6, none), 9),
   ((0x13, some 7, none), 10),
   ((0x13, some 2, none), 11),
   ((0x13, some 3, none), 12),
   ((0x63, some 0, none), 13),
   ((0x63, some 1, none), 14),
   ((0x63, some 4, none), 15),
   ((0x63, some 5, none), 16),
   ((0x63, some 6, none), 17),
   ((0x63, some 7, none), 18),
   ((0x6f, none, none), 19),
   ((0x67, none, none), 20),
   ((0x37, none, none), 21),
   ((0x17, none, none), 22),
   ((0x33, some 1, some 0x00), 24),
   ((0x13, some 1, some 0x00), 25),
   ((0x33, some 0, some 0x01), 26),
   ((0x33, some 1, some 0x01), 27),
   ((0x33, some 2, some 0x01), 28),
   ((0x33, some 3, some 0x01), 29),
   ((0x33, some 5, some 0x00), 32),
   ((0x33, some 5, some 0x20), 33),
   ((0x13, some 5, some 0x00), 34),
   ((0x13, some 5, some 0x20), 35),
   ((0x33, some 4, some 0x01), 36),
   ((0x33, some 5, some 0x01), 37),
   ((0x33, some 6, some 0x01), 38),
   ((0x33, some 7, some 0x01), 39),
   ((0x03, some 0, none), 40),
   ((0x03, some 1, none), 41),
   ((0x03, some 2, none), 42),
   ((0x03, some 4, none), 43),
   ((0x03, some 5, none), 44),
   ((0x23, some 0, none), 48),
   ((0x23, some 1, none), 49),
   ((0x23, some 2, none), 50),
   ((0x73, some 0, some 0x00), 56),
   ((0x73, some 0, some 0x18), 57)]

/-- The three-stage dictionary probe of get_insn_kind, as a function of the
decoded fields: exact (opcode, func3, func7) key first, then (opcode, func3,
None), then (opcode, None, None); 255 is the Invalid sentinel. -/
def kind_lookup (opcode func3 func7 : Nat) : Nat :=
  match INSN_KIND_MAP.lookup (opcode, some func3, some func7) with
  | some k => k
  | none =>
    match INSN_KIND_MAP.lookup (opcode, some func3, none) with
    | some k => k
    | none =>
      match INSN_KIND_MAP.lookup (opcode, none, none) with
      | some k => k
      | none => 255

/-- get_insn_kind of a4/find_mutation_target.py. -/
def get_insn_kind (word : Nat) : Nat :=
  let decoded := DecodedInstruction.from_word word
  kind_lookup decoded.opcode decoded.func3 decoded.func7

/-- kind_to_major_minor of a4/find_mutation_target.py. -/
def kind_to_major_minor (kind : Nat) : Nat × Nat :=
  (kind / 8, kind % 8)

end Fmt

/-! Agreement between the core decoder and the find_mutation_target lookup
table.  Both are functions of (opcode, func3, func7) except for the SYSTEM
opcode 0x73, where the core decoder compares the whole word.  The agreement
is checked exhaustively over the field space, one recognized opcode at a
time. -/

/-- Whenever the core decoder accepts the field triple, the lookup table is
either invalid (255) or yields the same kind.  The word argument of
Core.kind_of is fixed to 0, which makes the SYSTEM branch reject. -/
def coreTableAgree (o f3 f7 : Nat) : Bool :=
  match Core.kind_of o f3 f7 0 with
  | none => true
  | some k => (Fmt.kind_lookup o f3 f7 == 255) || (Fmt.kind_lookup o f3 f7 == k)

set_option maxRecDepth 8000 in
set_option maxHeartbeats 4000000 in
theorem coreTableAgree_0x33 : ∀ f3 < 8, ∀ f7 < 128, coreTableAgree 0x33 f3 f7 = true := by
  decide

set_option maxRecDepth 8000 in
set_option maxHeartbeats 4000000 in
theorem coreTableAgree_0x13 : ∀ f3 < 8, ∀ f7 < 128, coreTableAgree 0x13 f3 f7 = true := by
  decide

set_option maxRecDepth 8000 in
set_option maxHeartbeats 4000000 in
theorem coreTableAgree_0x03 : ∀ f3 < 8, ∀ f7 < 128, coreTableAgree 0x03 f3 f7 = true := by
  decide

set_option maxRecDepth 8000 in
set_option maxHeartbeats 4000000 in
theorem coreTableAgree_0x23 : ∀ f3 < 8, ∀ f7 < 128, coreTableAgree 0x23 f3 f7 = true := by
  decide

set_option maxRecDepth 8000 in
set_option maxHeartbeats 4000000 in
theorem coreTableAgree_0x63 : ∀ f3 < 8, ∀ f7 < 128, coreTableAgree 0x63 f3 f7 = true := by
  decide

set_option maxRecDepth 8000 in
set_option maxHeartbeats 4000000 in
theorem coreTableAgree_0x6f : ∀ f3 < 8, ∀ f7 < 128, coreTableAgree 0x6f f3 f7 = true := by
  decide

set_option maxRecDepth 8000 in
set_option maxHeartbeats 4000000 in
theorem coreTableAgree_0x67 : ∀ f3 < 8, ∀ f7 < 128, coreTableAgree 0x67 f3 f7 = true := by
  decide

set_option maxRecDepth 8000 in
set_option maxHeartbeats 4000000 in
theorem coreTableAgree_0x37 : ∀ f3 < 8, ∀ f7 < 128, coreTableAgree 0x37 f3 f7 = true := by
  decide

set_option maxRecDepth 8000 in
set_option maxHeartbeats 4000000 in
theorem coreTableAgree_0x17 : ∀ f3 < 8, ∀ f7 < 128, coreTableAgree 0x17 f3 f7 = true := by
  decide

/-- Opcodes outside the recognized set make the core kind selection reject
(with the word fixed to 0, which also rejects in the SYSTEM branch). -/
theorem core_kind_of_zero_none (o f3 f7 : Nat)
    (h1 : o ≠ 0x33) (h2 : o ≠ 0x13) (h3 : o ≠ 0x03) (h4 : o ≠ 0x23) (h5 : o ≠ 0x63)
    (h6 : o ≠ 0x6f) (h7 : o ≠ 0x67) (h8 : o ≠ 0x37) (h9 : o ≠ 0x17) :
    Core.kind_of o f3 f7 0 = none := by
  unfold Core.kind_of
  rw [if_neg h1, if_neg h2, if_neg h3, if_neg h4, if_neg h5, if_neg h6, if_neg h7,
      if_neg h8, if_neg h9]
  split_ifs <;> first | rfl | assumption

set_option maxHeartbeats 1000000 in
/-- Away from the SYSTEM opcode, the core kind selection ignores the raw
word. -/
theorem core_kind_of_word_irrel (o f3 f7 w : Nat) (h : o ≠ 0x73) :
    Core.kind_of o f3 f7 w = Core.kind_of o f3 f7 0 := by
  unfold Core.kind_of
  split_ifs <;> rfl

/-- coreTableAgree holds on the whole field space. -/
theorem coreTableAgree_all (o f3 f7 : Nat) (hf3 : f3 < 8) (hf7 : f7 < 128) :
    coreTableAgree o f3 f7 = true := by
  by_cases h1 : o = 0x33
  · subst h1; exact coreTableAgree_0x33 f3 hf3 f7 hf7
  by_cases h2 : o = 0x13
  · subst h2; exact coreTableAgree_0x13 f3 hf3 f7 hf7
  by_cases h3 : o = 0x03
  · subst h3; exact coreTableAgree_0x03 f3 hf3 f7 hf7
  by_cases h4 : o = 0x23
  · subst h4; exact coreTableAgree_0x23 f3 hf3 f7 hf7
  by_cases h5 : o = 0x63
  · subst h5; exact coreTableAgree_0x63 f3 hf3 f7 hf7
  by_cases h6 : o = 0x6f
  · subst h6; exact coreTableAgree_0x6f f3 hf3 f7 hf7
  by_cases h7 : o = 0x67
  · subst h7; exact coreTableAgree_0x67 f3 hf3 f7 hf7
  by_cases h8 : o = 0x37
  · subst h8; exact coreTableAgree_0x37 f3 hf3 f7 hf7
  by_cases h9 : o = 0x17
  · subst h9; exact coreTableAgree_0x17 f3 hf3 f7 hf7
  unfold coreTableAgree
  rw [core_kind_of_zero_none o f3 f7 h1 h2 h3 h4 h5 h6 h7 h8 h9]

/-- Inversion for the core decoder: a successful decode is a successful kind
selection together with the derived major and minor fields. -/
theorem core_decode_spec (w : Nat) (d : DecodedInsn)
    (hd : Core.decode_insn_word w = some d) :
    Core.kind_of (w &&& 0x7f) ((w >>> 12) &&& 0x7) ((w >>> 25) &&& 0x7f) w = some d.kind ∧
    d.major = d.kind / 8 ∧ d.minor = d.kind % 8 := by
  simp only [Core.decode_insn_word] at hd
  cases hk : Core.kind_of (w &&& 0x7f) ((w >>> 12) &&& 0x7) ((w >>> 25) &&& 0x7f) w with
  | none => rw [hk] at hd; simp at hd
  | some k =>
    rw [hk] at hd
    simp only [Option.some.injEq] at hd
    subst hd
    exact ⟨rfl, rfl, rfl⟩

/-- Applying get_insn_kind is applying the three-stage probe to the masked
fields of the word. -/
theorem fmt_get_insn_kind_eq (w : Nat) :
    Fmt.get_insn_kind w =
      Fmt.kind_lookup (w &&& 0x7f) ((w >>> 12) &&& 0x7) ((w >>> 25) &&& 0x7f) := rfl

/-- C3, counterexample.  At the R-type shift word 0x00001033 (Sll) the common
decoder classifies with kind 27, hence (major, minor) = (3, 3), while the core
decoder and the find_mutation_target lookup table both give kind 24, hence
(3, 0).  All three report the word as valid, so the three decoders do not
produce the same classification. -/
theorem c3_decoders_counterexample :
    (Common.decode_insn_word 0x00001033).map (fun d => (d.major, d.minor)) = some (3, 3) ∧
    (Core.decode_insn_word 0x00001033).map (fun d => (d.major, d.minor)) = some (3, 0) ∧
    Fmt.get_insn_kind 0x00001033 ≠ 255 ∧
    Fmt.kind_to_major_minor (Fmt.get_insn_kind 0x00001033) = (3, 0) ∧
    ¬ ((3, 3) = ((3 : Nat), (0 : Nat))) := by
  decide

/-- C3, amended: the core decoder (a4/core/insn_decode.py) and the lookup
table of find_mutation_target.py never disagree on the classification of a
word that both accept: whenever the core decoder decodes the word and the
table does not return the 255 invalid sentinel, the table's kind and derived
(major, minor) equal the core decoder's.  (The common decoder uses an older
kind enumeration and genuinely disagrees, see the counterexample; and on
SYSTEM words with non-canonical register fields, such as 0x000000F3, the
table accepts while the core decoder rejects, so validity itself can differ
between the two.) -/
theorem c3_core_table_agreement (w : Nat) (d : DecodedInsn)
    (hd : Core.decode_insn_word w = some d)
    (hne : Fmt.get_insn_kind w ≠ 255) :
    Fmt.get_insn_kind w = d.kind ∧
    Fmt.kind_to_major_minor (Fmt.get_insn_kind w) = (d.major, d.minor) := by
  obtain ⟨hk, hmaj, hmin⟩ := core_decode_spec w d hd
  by_cases h73 : w &&& 0x7f = 0x73
  · rw [h73] at hk
    unfold Core.kind_of at hk
    norm_num at hk
    by_cases hw : w = 0x00000073
    · subst hw
      simp at hk
      refine ⟨by rw [← hk]; rfl, ?_⟩
      rw [hmaj, hmin, ← hk]
      rfl
    · by_cases hw2 : w = 0x30200073
      · subst hw2
        simp at hk
        refine ⟨by rw [← hk]; rfl, ?_⟩
        rw [hmaj, hmin, ← hk]
        rfl
      · rw [if_neg hw, if_neg hw2] at hk
        exact absurd hk (by simp)
  · rw [core_kind_of_word_irrel _ _ _ _ h73] at hk
    have hf3 : (w >>> 12) &&& 0x7 < 8 := by
      have := Nat.and_le_right (n := w >>> 12) (m := 7)
      omega
    have hf7 : (w >>> 25) &&& 0x7f < 128 := by
      have := Nat.and_le_right (n := w >>> 25) (m := 0x7f)
      omega
    have hag := coreTableAgree_all (w &&& 0x7f) ((w >>> 12) &&& 0x7) ((w >>> 25) &&& 0x7f)
      hf3 hf7
    unfold coreTableAgree at hag
    rw [hk] at hag
    rw [fmt_get_insn_kind_eq] at hne ⊢
    simp only [Bool.or_eq_true, beq_iff_eq] at hag
    rcases hag with hag | hag
    · exact absurd hag hne
    · refine ⟨hag, ?_⟩
      rw [hmaj, hmin, hag]
      rfl

/-- C3, witness for the amended agreement theorem at the Add word
0x00000033, where both the core decoder and the table accept and agree. -/
theorem c3_core_table_agreement_witness :
    Fmt.get_insn_kind 0x00000033 = 0 ∧
    Fmt.kind_to_major_minor (Fmt.get_insn_kind 0x00000033) = (0, 0) := by
  have h := c3_core_table_agreement 0x00000033
    { kind := 0, major := 0, minor := 0, name := "Add", opcode := 0x33, func3 := 0,
      func7 := some 0 }
    (by decide) (by decide)
  exact h

theorem lookup_some_mem {a : Nat} {l : List (Nat × Nat)} {b : Nat}
    (h : l.lookup a = some b) : b ∈ l.map Prod.snd := by
  induction l with
  | nil => simp [List.lookup] at h
  | cons e es ih =>
    rw [List.lookup] at h
    split at h
    · simp at h; simp [h]
    · simp [ih h]

theorem getD_le_of_all {l : List Nat} {b i d : Nat}
    (hall : ∀ x ∈ l, x ≤ b) (hd : d ≤ b) : (l[i]?).getD d ≤ b := by
  cases hg : l[i]? with
  | none => simpa using hd
  | some x =>
    have hx : x ∈ l := by
      have := List.getElem?_eq_some_iff.mp hg
      obtain ⟨hlt, hEq⟩ := this
      exact hEq ▸ List.getElem_mem hlt
    simpa using hall x hx

/-- Every kind the common decoder can select is at most 57. -/
theorem common_kind_of_le (o f3 f7 w k : Nat)
    (h : Common.kind_of o f3 f7 w = some k) : k ≤ 57 := by
  by_cases h1 : o = 0x33
  case pos =>
    subst h1; unfold Common.kind_of at h; norm_num at h
    repeat' split at h
    all_goals
      first
      | omega
      | (simp only [Option.some.injEq] at h; omega)
      | (simp only [Option.some.injEq] at h; subst h;
         exact getD_le_of_all (by decide) (by decide))
      | (have hm := lookup_some_mem h; simp at hm; omega)
      | (exact absurd h (by simp))
  case neg => ?_
  by_cases h2 : o = 0x13
  case pos =>
    subst h2; unfold Common.kind_of at h; norm_num at h
    repeat' split at h
    all_goals
      first
      | omega
      | (simp only [Option.some.injEq] at h; omega)
      | (exact absurd h (by simp))
  case neg => ?_
  by_cases h3 : o = 0x03
  case pos =>
    subst h3; unfold Common.kind_of at h; norm_num at h
    have hm := lookup_some_mem h; simp at hm; omega
  case neg => ?_
  by_cases h4 : o = 0x23
  case pos =>
    subst h4; unfold Common.kind_of at h; norm_num at h
    have hm := lookup_some_mem h; simp at hm; omega
  case neg => ?_
  by_cases h5 : o = 0x63
  case pos =>
    subst h5; unfold Common.kind_of at h; norm_num at h
    have hm := lookup_some_mem h; simp at hm; omega
  case neg => ?_
  by_cases h6 : o = 0x6f
  case pos => subst h6; unfold Common.kind_of at h; norm_num at h; omega
  case neg => ?_
  by_cases h7 : o = 0x67
  case pos => subst h7; unfold Common.kind_of at h; norm_num at h; omega
  case neg => ?_
  by_cases h8 : o = 0x37
  case pos => subst h8; unfold Common.kind_of at h; norm_num at h; omega
  case neg => ?_
  by_cases h9 : o = 0x17
  case pos => subst h9; unfold Common.kind_of at h; norm_num at h; omega
  case neg => ?_
  by_cases h10 : o = 0x0f
  case pos => subst h10; unfold Common.kind_of at h; norm_num at h; omega
  case neg => ?_
  by_cases h11 : o = 0x73
  case pos =>
    subst h11; unfold Common.kind_of at h; norm_num at h
    repeat' split at h
    all_goals
      first
      | omega
      | (simp only [Option.some.injEq] at h; omega)
      | (exact absurd h (by simp))
  case neg => ?_
  unfold Common.kind_of at h
  rw [if_neg h1, if_neg h2, if_neg h3, if_neg h4, if_neg h5, if_neg h6, if_neg h7,
      if_neg h8, if_neg h9, if_neg h10, if_neg h11] at h
  exact absurd h (by simp)

/-- Opcodes outside the recognized set make the common kind selection
reject. -/
theorem common_kind_of_none (o f3 f7 w : Nat)
    (h1 : o ≠ 0x33) (h2 : o ≠ 0x13) (h3 : o ≠ 0x03) (h4 : o ≠ 0x23) (h5 : o ≠ 0x63)
    (h6 : o ≠ 0x6f) (h7 : o ≠ 0x67) (h8 : o ≠ 0x37) (h9 : o ≠ 0x17) (h10 : o ≠ 0x0f)
    (h11 : o ≠ 0x73) :
    Common.kind_of o f3 f7 w = none := by
  unfold Common.kind_of
  rw [if_neg h1, if_neg h2, if_neg h3, if_neg h4, if_neg h5, if_neg h6, if_neg h7,
      if_neg h8, if_neg h9, if_neg h10, if_neg h11]

/-- Inversion for the common decoder: a successful decode is a successful
kind selection together with the derived major and minor fields. -/
theorem common_decode_spec (w : Nat) (d : DecodedInsn)
    (hd : Common.decode_insn_word w = some d) :
    Common.kind_of (w &&& 0x7f) ((w >>> 12) &&& 0x7) ((w >>> 25) &&& 0x7f) w = some d.kind ∧
    d.major = d.kind / 8 ∧ d.minor = d.kind % 8 := by
  simp only [Common.decode_insn_word] at hd
  cases hk : Common.kind_of (w &&& 0x7f) ((w >>> 12) &&& 0x7) ((w >>> 25) &&& 0x7f) w with
  | none => rw [hk] at hd; simp at hd
  | some k =>
    rw [hk] at hd
    simp only [Option.some.injEq] at hd
    subst hd
    exact ⟨rfl, rfl, rfl⟩

/-- C8: the common decoder is total and deterministic.  The only list
indexing it performs is in bounds (func3 is masked to three bits, so no
IndexError can occur); for 32-bit words the result is a function of the 32
bits; the result is always the explicit Option encoding (none for invalid,
never an exception); and any word whose opcode is outside the recognized
opcode set decodes to the none sentinel. -/
theorem c8_decode_total_deterministic (w : Nat) :
    ((w >>> 12) &&& 0x7) < 8 ∧
    (∀ w₂, w < 2 ^ 32 → w₂ < 2 ^ 32 → w % 2 ^ 32 = w₂ % 2 ^ 32 →
      Common.decode_insn_word w = Common.decode_insn_word w₂) ∧
    (Common.decode_insn_word w = none ∨ ∃ d, Common.decode_insn_word w = some d) ∧
    ((w &&& 0x7f) ∉
        ([0x33, 0x13, 0x03, 0x23, 0x63, 0x6f, 0x67, 0x37, 0x17, 0x0f, 0x73] : List Nat) →
      Common.decode_insn_word w = none) := by
  refine ⟨?_, ?_, ?_, ?_⟩
  · have := Nat.and_le_right (n := w >>> 12) (m := 7)
    omega
  · intro w₂ hw hw₂ hmod
    have : w = w₂ := by omega
    subst this; rfl
  · cases h : Common.decode_insn_word w with
    | none => exact Or.inl rfl
    | some d => exact Or.inr ⟨d, rfl⟩
  · intro hmem
    simp only [List.mem_cons, List.not_mem_nil, or_false, not_or] at hmem
    obtain ⟨n1, n2, n3, n4, n5, n6, n7, n8, n9, n10, n11⟩ := hmem
    simp only [Common.decode_insn_word]
    rw [common_kind_of_none _ _ _ _ n1 n2 n3 n4 n5 n6 n7 n8 n9 n10 n11]

/-- C8, witness at the word 0xFF, whose opcode 0x7F is unrecognized. -/
theorem c8_decode_total_deterministic_witness :
    ((0xFF >>> 12) &&& 0x7) < 8 ∧ Common.decode_insn_word 0xFF = none := by
  have h := c8_decode_total_deterministic 0xFF
  exact ⟨h.1, h.2.2.2 (by decide)⟩

/-- C9: the pairs the common decoder produces satisfy major at most 7 and
minor at most 7, and kind round-trips through kind_to_major_minor and
major_minor_to_kind in both directions. -/
theorem c9_major_minor_roundtrip (w : Nat) (d : DecodedInsn)
    (hd : Common.decode_insn_word w = some d) :
    d.major ≤ 7 ∧ d.minor ≤ 7 ∧
    Common.major_minor_to_kind (Common.kind_to_major_minor d.kind).1
      (Common.kind_to_major_minor d.kind).2 = d.kind ∧
    Common.kind_to_major_minor (Common.major_minor_to_kind d.major d.minor) =
      (d.major, d.minor) := by
  obtain ⟨hk, hmaj, hmin⟩ := common_decode_spec w d hd
  have hle : d.kind ≤ 57 := common_kind_of_le _ _ _ _ _ hk
  refine ⟨by omega, by omega, ?_, ?_⟩
  · simp only [Common.kind_to_major_minor, Common.major_minor_to_kind]
    omega
  · simp only [Common.kind_to_major_minor, Common.major_minor_to_kind, Prod.mk.injEq]
    omega

/-- C9, witness at the Add word 0x00000033. -/
theorem c9_major_minor_roundtrip_witness :
    Common.kind_to_major_minor (Common.major_minor_to_kind 0 0) = (0, 0) := by
  have h := c9_major_minor_roundtrip 0x00000033
    { kind := 0, major := 0, minor := 0, name := "Add", opcode := 0x33, func3 := 0,
      func7 := some 0 }
    (by decide)
  exact h.2.2.2

/-- A4CycleInfo record of a4/core/trace_parser.py (one preflight cycle).
Numeric fields are Int, as Python integers under subtraction. -/
structure A4CycleInfo where
  cycle_idx : Int
  step : Int
  pc : Int
  txn_idx : Int
  major : Int
  minor : Int
  deriving Repr, DecidableEq

/-- ArguzzTrace record of a4/arguzz_dependent/arguzz_parser.py. -/
structure ArguzzTrace where
  step : Int
  pc : Int
  instruction : String
  assembly : String
  deriving Repr, DecidableEq

/-- Python min(xs, key=k) on the nonempty list x :: xs: the first element
whose key is minimal (later elements replace the best only on strictly
smaller keys). -/
def pyMinBy {α : Type} (key : α → Int) (x : α) (xs : List α) : α :=
  xs.foldl (fun best c => if key c < key best then c else best) x

/-- Python max(xs, key=k) on the nonempty list x :: xs: the first element
whose key is maximal. -/
def pyMaxBy {α : Type} (key : α → Int) (x : α) (xs : List α) : α :=
  xs.foldl (fun best c => if key c > key best then c else best) x

/-- The ValueError message raised by find_a4_step_for_arguzz_step when no
cycle matches (hex formatting of the source replaced by decimal). -/
def no_match_msg (expected_pc arguzz_step : Int) : String :=
  "No A4 instruction cycle found at PC=" ++ toString expected_pc ++
  " (arguzz_pc+4) for Arguzz step " ++ toString arguzz_step ++
  ". This PC may not have been reached in the preflight trace."

/-- find_a4_step_for_arguzz_step of a4/arguzz_dependent/step_mapper.py.
The raise of ValueError is modelled as Except.error. -/
def find_a4_step_for_arguzz_step (arguzz_step arguzz_pc : Int)
    (a4_cycles : List A4CycleInfo) (offset : Option Int) : Except String Int :=
  let expected_pc := arguzz_pc + 4
  match a4_cycles.filter (fun c => c.pc == expected_pc && decide (c.major ≤ 6)) with
  | [] => .error (no_match_msg expected_pc arguzz_step)
  | [c] => .ok c.step
  | c :: rest =>
    match offset with
    | some off =>
      let target_step := arguzz_step - off
      .ok (pyMinBy (fun x => |x.step - target_step|) c rest).step
    | none =>
      match (c :: rest).filter (fun x => decide (x.step ≤ arguzz_step)) with
      | [] => .ok (pyMinBy (fun x => |x.step - arguzz_step|) c rest).step
      | v :: vs => .ok (pyMaxBy (fun x => x.step) v vs).step

/-- The first Python dict of compute_arguzz_preflight_offset: pc mapped to
its first-occurrence step over the arguzz trace, as an association list in
insertion order. -/
def arguzz_pc_to_first_step (arguzz_traces : List ArguzzTrace) : List (Int × Int) :=
  arguzz_traces.foldl
    (fun m t => if (m.lookup t.pc).isSome then m else m ++ [(t.pc, t.step)])
    ([] : List (Int × Int))

/-- The second Python dict of compute_arguzz_preflight_offset: pc mapped to
its first-occurrence step over the instruction cycles (major at most 6) of
the preflight trace. -/
def preflight_pc_to_first_step (a4_cycles : List A4CycleInfo) : List (Int × Int) :=
  a4_cycles.foldl
    (fun m c =>
      if c.major ≤ 6 ∧ (m.lookup c.pc).isSome = false then m ++ [(c.pc, c.step)] else m)
    ([] : List (Int × Int))

/-- The offset samples of compute_arguzz_preflight_offset, one per common
pc.  The Python set intersection iterates in an unspecified order; this walks
the arguzz map in insertion order, which yields the same multiset of offsets,
and the list is sorted before the median is taken, so the result agrees. -/
def offset_samples (arguzz_traces : List ArguzzTrace)
    (a4_cycles : List A4CycleInfo) : List Int :=
  let pmap := preflight_pc_to_first_step a4_cycles
  ((arguzz_pc_to_first_step arguzz_traces).filter
      (fun e => (pmap.lookup e.1).isSome)).map
    (fun e => e.2 - (pmap.lookup e.1).getD 0)

/-- compute_arguzz_preflight_offset of a4/arguzz_dependent/step_mapper.py.
list.sort() is modelled by insertionSort, which produces the same ascending
list of integers. -/
def compute_arguzz_preflight_offset (arguzz_traces : List ArguzzTrace)
    (a4_cycles : List A4CycleInfo) : Int :=
  let offsets := offset_samples arguzz_traces a4_cycles
  if offsets = [] then 0
  else (offsets.insertionSort (· ≤ ·)).getD (offsets.length / 2) 0

theorem pyMinBy_mem {α : Type} (key : α → Int) (x : α) (xs : List α) :
    pyMinBy key x xs ∈ x :: xs := by
  induction xs generalizing x with
  | nil => simp [pyMinBy]
  | cons c cs ih =>
    have he : pyMinBy key x (c :: cs) =
        pyMinBy key (if key c < key x then c else x) cs := rfl
    rw [he]
    rcases List.mem_cons.mp (ih (if key c < key x then c else x)) with h1 | h1
    · rw [h1]
      split
      · simp
      · simp
    · simp [List.mem_cons, h1]

theorem pyMinBy_le {α : Type} (key : α → Int) (x : α) (xs : List α) :
    ∀ y ∈ x :: xs, key (pyMinBy key x xs) ≤ key y := by
  induction xs generalizing x with
  | nil =>
    intro y hy
    simp at hy
    subst hy
    simp [pyMinBy]
  | cons c cs ih =>
    intro y hy
    have he : pyMinBy key x (c :: cs) =
        pyMinBy key (if key c < key x then c else x) cs := rfl
    rw [he]
    by_cases hc : key c < key x
    · rw [if_pos hc]
      have hhead := ih c c (List.mem_cons_self c cs)
      rcases List.mem_cons.mp hy with h1 | h1
      · rw [h1]; omega
      · rcases List.mem_cons.mp h1 with h2 | h2
        · rw [h2]; exact hhead
        · exact ih c y (List.mem_cons_of_mem c h2)
    · rw [if_neg hc]
      have hhead := ih x x (List.mem_cons_self x cs)
      rcases List.mem_cons.mp hy with h1 | h1
      · rw [h1]; exact hhead
      · rcases List.mem_cons.mp h1 with h2 | h2
        · rw [h2]; omega
        · exact ih x y (List.mem_cons_of_mem x h2)

theorem pyMaxBy_mem {α : Type} (key : α → Int) (x : α) (xs : List α) :
    pyMaxBy key x xs ∈ x :: xs := by
  induction xs generalizing x with
  | nil => simp [pyMaxBy]
  | cons c cs ih =>
    have he : pyMaxBy key x (c :: cs) =
        pyMaxBy key (if key c > key x then c else x) cs := rfl
    rw [he]
    rcases List.mem_cons.mp (ih (if key c > key x then c else x)) with h1 | h1
    · rw [h1]
      split
      · simp
      · simp
    · simp [List.mem_cons, h1]

theorem pyMaxBy_ge {α : Type} (key : α → Int) (x : α) (xs : List α) :
    ∀ y ∈ x :: xs, key y ≤ key (pyMaxBy key x xs) := by
  induction xs generalizing x with
  | nil =>
    intro y hy
    simp at hy
    subst hy
    simp [pyMaxBy]
  | cons c cs ih =>
    intro y hy
    have he : pyMaxBy key x (c :: cs) =
        pyMaxBy key (if key c > key x then c else x) cs := rfl
    rw [he]
    by_cases hc : key c > key x
    · rw [if_pos hc]
      have hhead := ih c c (List.mem_cons_self c cs)
      rcases List.mem_cons.mp hy with h1 | h1
      · rw [h1]; omega
      · rcases List.mem_cons.mp h1 with h2 | h2
        · rw [h2]; exact hhead
        · exact ih c y (List.mem_cons_of_mem c h2)
    · rw [if_neg hc]
      have hhead := ih x x (List.mem_cons_self x cs)
      rcases List.mem_cons.mp hy with h1 | h1
      · rw [h1]; exact hhead
      · rcases List.mem_cons.mp h1 with h2 | h2
        · rw [h2]; omega
        · exact ih x y (List.mem_cons_of_mem x h2)

/-- C1, counterexample.  With faultStep 10, faultPC 0x2000 and a single
instruction cycle whose recorded programCounter is exactly 0x2000 (a
control-flow target: no cycle records 0x2004), the locator raises
immediately: it performs no second search with expectedPC = faultPC even
though that search would find exactly one match, so the claimed retry does
not exist in the code. -/
theorem c1_no_retry_counterexample :
    find_a4_step_for_arguzz_step 10 0x2000
      [⟨0, 10, 0x2000, 0, 0, 0⟩] none = .error (no_match_msg 0x2004 10) ∧
    ([⟨0, 10, 0x2000, 0, 0, 0⟩] : List A4CycleInfo).filter
      (fun c => c.pc == 0x2000 && decide (c.major ≤ 6)) =
      [⟨0, 10, 0x2000, 0, 0, 0⟩] := by
  constructor
  · rfl
  · rfl

/-- C1, amended: when zero scheme-B instruction cycles match
programCounter == faultPC + 4, the Step Locator immediately returns the
NotFound error (a ValueError in the source); there is no retry with
expectedPC = faultPC. -/
theorem c1_no_match_error (arguzz_step arguzz_pc : Int) (a4_cycles : List A4CycleInfo)
    (offset : Option Int)
    (h : a4_cycles.filter
      (fun c => c.pc == arguzz_pc + 4 && decide (c.major ≤ 6)) = []) :
    find_a4_step_for_arguzz_step arguzz_step arguzz_pc a4_cycles offset =
      .error (no_match_msg (arguzz_pc + 4) arguzz_step) := by
  unfold find_a4_step_for_arguzz_step
  simp only []
  rw [h]

/-- C1, witness for the amended theorem on an empty cycle list. -/
theorem c1_no_match_error_witness :
    find_a4_step_for_arguzz_step 7 0x1000 [] none =
      .error (no_match_msg 0x1004 7) := by
  exact c1_no_match_error 7 0x1000 [] none rfl

/-- The instruction-cycle matches the locator computes for a fault
coordinate: cycles whose recorded pc is faultPC + 4 with major at most 6. -/
def locator_matches (arguzz_pc : Int) (a4_cycles : List A4CycleInfo) : List A4CycleInfo :=
  a4_cycles.filter (fun c => c.pc == arguzz_pc + 4 && decide (c.major ≤ 6))

/-- Whether an Except value is a success. -/
def exceptIsOk : Except String Int → Bool
  | .ok _ => true
  | .error _ => false

/-- C2, counterexample.  With a supplied offset of 0, faultStep 180 and
matches at steps 10 and 300 (both instruction cycles at faultPC + 4), the
locator returns step 300, which exceeds faultStep 180 even though the
candidate at step 10 satisfies step ≤ faultStep: the offset path picks the
step closest to faultStep − offset with no step ≤ faultStep constraint. -/
theorem c2_offset_counterexample :
    find_a4_step_for_arguzz_step 180 0x1000
      [⟨0, 10, 0x1004, 0, 0, 0⟩, ⟨1, 300, 0x1004, 0, 0, 0⟩] (some 0) = .ok 300 ∧
    locator_matches 0x1000 [⟨0, 10, 0x1004, 0, 0, 0⟩, ⟨1, 300, 0x1004, 0, 0, 0⟩] =
      [⟨0, 10, 0x1004, 0, 0, 0⟩, ⟨1, 300, 0x1004, 0, 0, 0⟩] ∧
    (10 : Int) ≤ 180 ∧ ¬ ((300 : Int) ≤ 180) := by
  refine ⟨rfl, rfl, by omega, by omega⟩

/-- Case analysis for the locator with no offset: the result is the NotFound
error when there are no matches, the unique match's step when there is one,
and with several matches either the greatest valid step or, with no valid
candidate, the absolutely closest step. -/
theorem find_none_cases (arguzz_step arguzz_pc : Int) (a4_cycles : List A4CycleInfo) :
    (locator_matches arguzz_pc a4_cycles = [] ∧
      find_a4_step_for_arguzz_step arguzz_step arguzz_pc a4_cycles none =
        .error (no_match_msg (arguzz_pc + 4) arguzz_step)) ∨
    (∃ c, locator_matches arguzz_pc a4_cycles = [c] ∧
      find_a4_step_for_arguzz_step arguzz_step arguzz_pc a4_cycles none = .ok c.step) ∨
    (∃ c rest, locator_matches arguzz_pc a4_cycles = c :: rest ∧ rest ≠ [] ∧
      (((c :: rest).filter (fun x => decide (x.step ≤ arguzz_step)) = [] ∧
        find_a4_step_for_arguzz_step arguzz_step arguzz_pc a4_cycles none =
          .ok (pyMinBy (fun x => |x.step - arguzz_step|) c rest).step) ∨
      (∃ v vs, (c :: rest).filter (fun x => decide (x.step ≤ arguzz_step)) = v :: vs ∧
        find_a4_step_for_arguzz_step arguzz_step arguzz_pc a4_cycles none =
          .ok (pyMaxBy (fun x => x.step) v vs).step))) := by
  unfold locator_matches find_a4_step_for_arguzz_step
  simp only []
  split
  · next heq => exact Or.inl ⟨heq, rfl⟩
  · next c heq => exact Or.inr (Or.inl ⟨c, heq, rfl⟩)
  · next c rest hne heq =>
    refine Or.inr (Or.inr ⟨c, rest, heq, fun h => hne h, ?_⟩)
    split
    · next hv => exact Or.inl ⟨hv, rfl⟩
    · next v vs hv => exact Or.inr ⟨v, vs, hv, rfl⟩

/-- C2, amended: the step-upper-bound guarantee holds on the no-offset
heuristic path: when no offset is supplied and at least one match has
step ≤ faultStep, the locator succeeds and every step it can return is at
most faultStep.  (With a supplied offset the locator instead returns the
match whose step is closest to faultStep − offset, which can exceed
faultStep, see the counterexample.) -/
theorem c2_heuristic_step_bound (arguzz_step arguzz_pc : Int)
    (a4_cycles : List A4CycleInfo)
    (hex : ∃ c ∈ locator_matches arguzz_pc a4_cycles, c.step ≤ arguzz_step) :
    exceptIsOk (find_a4_step_for_arguzz_step arguzz_step arguzz_pc a4_cycles none) = true ∧
    ∀ s, find_a4_step_for_arguzz_step arguzz_step arguzz_pc a4_cycles none = .ok s →
      s ≤ arguzz_step := by
  obtain ⟨c0, hc0mem, hc0le⟩ := hex
  rcases find_none_cases arguzz_step arguzz_pc a4_cycles with
    ⟨hnil, _⟩ | ⟨c, hone, hres⟩ | ⟨c, rest, hcons, _, ⟨hv, _⟩ | ⟨v, vs, hv, hres⟩⟩
  · rw [hnil] at hc0mem
    simp at hc0mem
  · rw [hres]
    rw [hone] at hc0mem
    simp at hc0mem
    refine ⟨rfl, fun s hs => ?_⟩
    injection hs with h
    subst hc0mem
    omega
  · exfalso
    rw [hcons] at hc0mem
    have hin : c0 ∈ (c :: rest).filter (fun x => decide (x.step ≤ arguzz_step)) :=
      List.mem_filter.mpr ⟨hc0mem, by simpa⟩
    rw [hv] at hin
    simp at hin
  · rw [hres]
    refine ⟨rfl, fun s hs => ?_⟩
    injection hs with h
    have hmem := pyMaxBy_mem (fun x => x.step) v vs
    rw [← hv] at hmem
    have hsat := (List.mem_filter.mp hmem).2
    simp at hsat
    omega

/-- C2, witness for the amended theorem: a single match at step 50 with
faultStep 100 resolves successfully. -/
theorem c2_heuristic_step_bound_witness :
    exceptIsOk (find_a4_step_for_arguzz_step 100 0x0ffc
      [⟨0, 50, 0x1000, 0, 0, 0⟩] none) = true := by
  exact (c2_heuristic_step_bound 100 0x0ffc [⟨0, 50, 0x1000, 0, 0, 0⟩]
    ⟨⟨0, 50, 0x1000, 0, 0, 0⟩, by decide, by decide⟩).1

/-- C5: with several matches and no offset, the locator returns the greatest
matched step that is still at most faultStep; when no match is at most
faultStep it returns a matched step of minimal absolute distance to
faultStep; and in the concrete scenario with matches at steps 50, 150, 250
and faultStep 180 it returns 150. -/
theorem c5_no_offset_disambiguation (arguzz_step arguzz_pc : Int)
    (a4_cycles : List A4CycleInfo)
    (hlen : 2 ≤ (locator_matches arguzz_pc a4_cycles).length) :
    ((∃ c ∈ locator_matches arguzz_pc a4_cycles, c.step ≤ arguzz_step) →
      ∃ c ∈ locator_matches arguzz_pc a4_cycles,
        find_a4_step_for_arguzz_step arguzz_step arguzz_pc a4_cycles none = .ok c.step ∧
        c.step ≤ arguzz_step ∧
        ∀ c2 ∈ locator_matches arguzz_pc a4_cycles, c2.step ≤ arguzz_step →
          c2.step ≤ c.step) ∧
    ((∀ c ∈ locator_matches arguzz_pc a4_cycles, arguzz_step < c.step) →
      ∃ c ∈ locator_matches arguzz_pc a4_cycles,
        find_a4_step_for_arguzz_step arguzz_step arguzz_pc a4_cycles none = .ok c.step ∧
        ∀ c2 ∈ locator_matches arguzz_pc a4_cycles,
          |c.step - arguzz_step| ≤ |c2.step - arguzz_step|) ∧
    find_a4_step_for_arguzz_step 180 0x2000
      [⟨0, 50, 0x2004, 0, 0, 0⟩, ⟨1, 150, 0x2004, 0, 0, 0⟩, ⟨2, 250, 0x2004, 0, 0, 0⟩]
      none = .ok 150 := by
  refine ⟨?_, ?_, rfl⟩
  · intro hex
    obtain ⟨c0, hc0mem, hc0le⟩ := hex
    rcases find_none_cases arguzz_step arguzz_pc a4_cycles with
      ⟨hnil, _⟩ | ⟨c, hone, hres⟩ | ⟨c, rest, hcons, _, ⟨hv, _⟩ | ⟨v, vs, hv, hres⟩⟩
    · rw [hnil] at hlen
      simp at hlen
    · rw [hone] at hlen
      simp at hlen
    · exfalso
      rw [hcons] at hc0mem
      have hin : c0 ∈ (c :: rest).filter (fun x => decide (x.step ≤ arguzz_step)) :=
        List.mem_filter.mpr ⟨hc0mem, by simpa⟩
      rw [hv] at hin
      simp at hin
    · have hmem := pyMaxBy_mem (fun x => x.step) v vs
      have hmax := pyMaxBy_ge (fun x => x.step) v vs
      rw [← hv] at hmem
      have hfil := List.mem_filter.mp hmem
      refine ⟨pyMaxBy (fun x => x.step) v vs, ?_, hres, ?_, ?_⟩
      · rw [hcons]; exact hfil.1
      · have := hfil.2; simpa using this
      · intro c2 hc2mem hc2le
        have hc2in : c2 ∈ (c :: rest).filter (fun x => decide (x.step ≤ arguzz_step)) := by
          rw [hcons] at hc2mem
          exact List.mem_filter.mpr ⟨hc2mem, by simpa⟩
        rw [hv] at hc2in
        exact hmax c2 hc2in
  · intro hall
    rcases find_none_cases arguzz_step arguzz_pc a4_cycles with
      ⟨hnil, _⟩ | ⟨c, hone, hres⟩ | ⟨c, rest, hcons, _, ⟨hv, hres⟩ | ⟨v, vs, hv, hres⟩⟩
    · rw [hnil] at hlen
      simp at hlen
    · rw [hone] at hlen
      simp at hlen
    · have hmem := pyMinBy_mem (fun x => |x.step - arguzz_step|) c rest
      have hmin := pyMinBy_le (fun x => |x.step - arguzz_step|) c rest
      refine ⟨pyMinBy (fun x => |x.step - arguzz_step|) c rest, ?_, hres, ?_⟩
      · rw [hcons]; exact hmem
      · intro c2 hc2mem
        rw [hcons] at hc2mem
        exact hmin c2 hc2mem
    · exfalso
      have hvmem : v ∈ (c :: rest).filter (fun x => decide (x.step ≤ arguzz_step)) := by
        rw [hv]; simp
      have hfil := List.mem_filter.mp hvmem
      have hvv : v.step ≤ arguzz_step := by simpa using hfil.2
      have := hall v (by rw [hcons]; exact hfil.1)
      omega

/-- C5, witness: the concrete scenario instantiates the theorem with both
hypotheses satisfied. -/
theorem c5_no_offset_disambiguation_witness :
    find_a4_step_for_arguzz_step 180 0x2000
      [⟨0, 50, 0x2004, 0, 0, 0⟩, ⟨1, 150, 0x2004, 0, 0, 0⟩, ⟨2, 250, 0x2004, 0, 0, 0⟩]
      none = .ok 150 := by
  exact (c5_no_offset_disambiguation 180 0x2000
    [⟨0, 50, 0x2004, 0, 0, 0⟩, ⟨1, 150, 0x2004, 0, 0, 0⟩, ⟨2, 250, 0x2004, 0, 0, 0⟩]
    (by decide)).2.2

theorem lookup_append_int (l1 l2 : List (Int × Int)) (a : Int) :
    (l1 ++ l2).lookup a =
      match l1.lookup a with
      | some b => some b
      | none => l2.lookup a := by
  induction l1 with
  | nil => simp [List.lookup]
  | cons e es ih =>
    simp only [List.cons_append, List.lookup]
    split <;> simp [ih]

/-- With pairwise distinct pcs, the arguzz first-occurrence dict records
every entry, in order. -/
theorem arguzz_map_of_nodup (l : List ArguzzTrace)
    (hnd : (l.map (fun t => t.pc)).Nodup) :
    arguzz_pc_to_first_step l = l.map (fun t => (t.pc, t.step)) := by
  suffices h : ∀ acc : List (Int × Int), (∀ t ∈ l, acc.lookup t.pc = none) →
      l.foldl
        (fun m t => if (m.lookup t.pc).isSome then m else m ++ [(t.pc, t.step)]) acc =
      acc ++ l.map (fun t => (t.pc, t.step)) by
    simpa using h [] (by simp [List.lookup])
  induction l with
  | nil => intro acc hacc; simp
  | cons t ts ih =>
    intro acc hacc
    have hnone := hacc t (List.mem_cons_self t ts)
    simp only [List.foldl_cons, hnone, Option.isSome_none, Bool.false_eq_true,
      if_false]
    have hnd2 : ((ts.map (fun t => t.pc))).Nodup := (List.nodup_cons.mp hnd).2
    have hpc : t.pc ∉ ts.map (fun t => t.pc) := (List.nodup_cons.mp hnd).1
    have hstep := ih hnd2 (acc ++ [(t.pc, t.step)]) ?_
    · rw [hstep]
      simp
    · intro u hu
      rw [lookup_append_int]
      rw [hacc u (List.mem_cons_of_mem t hu)]
      have hne : u.pc ≠ t.pc := by
        intro hEq
        exact hpc (hEq ▸ List.mem_map_of_mem (fun t => t.pc) hu)
      have hbeq : (u.pc == t.pc) = false := beq_eq_false_iff_ne.mpr hne
      simp [List.lookup, hbeq]

/-- With pairwise distinct pcs, the preflight first-occurrence dict records
exactly the instruction cycles (major at most 6), in order. -/
theorem preflight_map_of_nodup (l : List A4CycleInfo)
    (hnd : (l.map (fun c => c.pc)).Nodup) :
    preflight_pc_to_first_step l =
      (l.filter (fun c => decide (c.major ≤ 6))).map (fun c => (c.pc, c.step)) := by
  suffices h : ∀ acc : List (Int × Int), (∀ c ∈ l, acc.lookup c.pc = none) →
      l.foldl
        (fun m c =>
          if c.major ≤ 6 ∧ (m.lookup c.pc).isSome = false then m ++ [(c.pc, c.step)]
          else m) acc =
      acc ++ (l.filter (fun c => decide (c.major ≤ 6))).map (fun c => (c.pc, c.step)) by
    simpa using h [] (by simp [List.lookup])
  induction l with
  | nil => intro acc hacc; simp
  | cons c cs ih =>
    intro acc hacc
    have hnone := hacc c (List.mem_cons_self c cs)
    have hnd2 : ((cs.map (fun c => c.pc))).Nodup := (List.nodup_cons.mp hnd).2
    have hpc : c.pc ∉ cs.map (fun c => c.pc) := (List.nodup_cons.mp hnd).1
    simp only [List.foldl_cons, List.filter_cons]
    by_cases hmaj : c.major ≤ 6
    · rw [if_pos ⟨hmaj, by simp [hnone]⟩]
      have hstep := ih hnd2 (acc ++ [(c.pc, c.step)]) ?_
      · rw [hstep]
        simp [hmaj]
      · intro u hu
        rw [lookup_append_int]
        rw [hacc u (List.mem_cons_of_mem c hu)]
        have hne : u.pc ≠ c.pc := by
          intro hEq
          exact hpc (hEq ▸ List.mem_map_of_mem (fun c => c.pc) hu)
        have hbeq : (u.pc == c.pc) = false := beq_eq_false_iff_ne.mpr hne
        simp [List.lookup, hbeq]
    · rw [if_neg (by simp [hmaj])]
      have hstep := ih hnd2 acc (fun u hu => hacc u (List.mem_cons_of_mem c hu))
      rw [hstep]
      simp [hmaj]

/-- List.lookup is invariant under permutation when the keys are pairwise
distinct. -/
theorem lookup_perm_int {l1 l2 : List (Int × Int)} (h : l1.Perm l2)
    (hnd : (l1.map Prod.fst).Nodup) (a : Int) : l1.lookup a = l2.lookup a := by
  induction h with
  | nil => rfl
  | cons x h ih =>
    simp only [List.lookup]
    split
    · rfl
    · exact ih (by simpa using (List.nodup_cons.mp (by simpa using hnd)).2)
  | swap x y l =>
    rw [List.map_cons, List.map_cons] at hnd
    have h0 := (List.nodup_cons.mp hnd).1
    have hxy : y.1 ≠ x.1 := by
      intro hEq
      exact h0 (hEq ▸ List.mem_cons_self x.1 (l.map Prod.fst))
    cases hy : (a == y.1) <;> cases hx : (a == x.1)
    · simp [List.lookup, hy, hx]
    · simp [List.lookup, hy, hx]
    · simp [List.lookup, hy, hx]
    · exact absurd (by rw [← beq_iff_eq.mp hy, ← beq_iff_eq.mp hx]) hxy
  | trans h1 h2 ih1 ih2 =>
    rw [ih1 hnd]
    exact ih2 ((h1.map Prod.fst).nodup_iff.mp hnd)

/-- insertionSort maps permuted integer lists to the same sorted list. -/
theorem insertionSort_eq_of_perm {l1 l2 : List Int} (h : l1.Perm l2) :
    l1.insertionSort (· ≤ ·) = l2.insertionSort (· ≤ ·) := by
  refine List.eq_of_perm_of_sorted (r := (fun a b : Int => a ≤ b)) ?_ ?_ ?_
  · exact (List.perm_insertionSort _ l1).trans (h.trans (List.perm_insertionSort _ l2).symm)
  · exact List.sorted_insertionSort _ l1
  · exact List.sorted_insertionSort _ l2

/-- C4, counterexample.  The estimator depends on the order of PC
occurrences: with two arguzz records of the same pc 100 at steps 0 and 5,
swapping them changes the first-occurrence step, and the estimate changes
from 0 to 5; permutation invariance fails. -/
theorem c4_perm_counterexample :
    compute_arguzz_preflight_offset
      [⟨0, 100, "", ""⟩, ⟨5, 100, "", ""⟩] [⟨0, 0, 100, 0, 0, 0⟩] = 0 ∧
    compute_arguzz_preflight_offset
      [⟨5, 100, "", ""⟩, ⟨0, 100, "", ""⟩] [⟨0, 0, 100, 0, 0, 0⟩] = 5 ∧
    ([⟨0, 100, "", ""⟩, ⟨5, 100, "", ""⟩] : List ArguzzTrace).Perm
      [⟨5, 100, "", ""⟩, ⟨0, 100, "", ""⟩] ∧
    (0 : Int) ≠ 5 := by
  refine ⟨rfl, rfl, ?_, by decide⟩
  exact List.Perm.swap _ _ _

/-- C4, amended: the offset estimate is invariant under permutation of
either input list provided each pc occurs at most once per list (then the
first-occurrence maps contain the same entries and the sorted offset list,
hence its median, is unchanged). -/
theorem c4_perm_invariance_nodup (a1 a2 : List ArguzzTrace) (p1 p2 : List A4CycleInfo)
    (ha : a1.Perm a2) (hp : p1.Perm p2)
    (hna : (a1.map (fun t => t.pc)).Nodup) (hnp : (p1.map (fun c => c.pc)).Nodup) :
    compute_arguzz_preflight_offset a1 p1 = compute_arguzz_preflight_offset a2 p2 := by
  have hna2 : (a2.map (fun t => t.pc)).Nodup := ((ha.map _).nodup_iff).mp hna
  have hnp2 : (p2.map (fun c => c.pc)).Nodup := ((hp.map _).nodup_iff).mp hnp
  have hpm1 := preflight_map_of_nodup p1 hnp
  have hpm2 := preflight_map_of_nodup p2 hnp2
  have hpmperm : (preflight_pc_to_first_step p1).Perm (preflight_pc_to_first_step p2) := by
    rw [hpm1, hpm2]
    exact (hp.filter _).map _
  have hkeys : ((preflight_pc_to_first_step p1).map Prod.fst).Nodup := by
    rw [hpm1, List.map_map]
    have hsub := (List.filter_sublist (l := p1) (p := fun c => decide (c.major ≤ 6))).map
      (fun c => c.pc)
    simpa [Function.comp] using List.Nodup.sublist hsub hnp
  have hlook : ∀ x, (preflight_pc_to_first_step p1).lookup x =
      (preflight_pc_to_first_step p2).lookup x :=
    fun x => lookup_perm_int hpmperm hkeys x
  have hofs : (offset_samples a1 p1).Perm (offset_samples a2 p2) := by
    unfold offset_samples
    simp only []
    have hF : (fun e : Int × Int => ((preflight_pc_to_first_step p2).lookup e.1).isSome) =
        (fun e : Int × Int => ((preflight_pc_to_first_step p1).lookup e.1).isSome) :=
      funext (fun e => by rw [hlook e.1])
    have hG : (fun e : Int × Int =>
          e.2 - ((preflight_pc_to_first_step p2).lookup e.1).getD 0) =
        (fun e : Int × Int =>
          e.2 - ((preflight_pc_to_first_step p1).lookup e.1).getD 0) :=
      funext (fun e => by rw [hlook e.1])
    rw [hF, hG]
    have hamap : (arguzz_pc_to_first_step a1).Perm (arguzz_pc_to_first_step a2) := by
      rw [arguzz_map_of_nodup a1 hna, arguzz_map_of_nodup a2 hna2]
      exact ha.map _
    exact (hamap.filter _).map _
  unfold compute_arguzz_preflight_offset
  simp only []
  by_cases hnil : offset_samples a1 p1 = []
  · have hnil2 : offset_samples a2 p2 = [] := List.Perm.eq_nil (hnil ▸ hofs).symm
    rw [if_pos hnil, if_pos hnil2]
  · have hnil2 : offset_samples a2 p2 ≠ [] :=
      fun h2 => hnil ((h2 ▸ hofs : (offset_samples a1 p1).Perm []).eq_nil)
    rw [if_neg hnil, if_neg hnil2, insertionSort_eq_of_perm hofs, hofs.length_eq]

/-- C4, witness: two different interleavings of two distinct-pc arguzz
records give the same estimate. -/
theorem c4_perm_invariance_nodup_witness :
    compute_arguzz_preflight_offset
      [⟨0, 100, "", ""⟩, ⟨3, 200, "", ""⟩] [⟨0, 0, 100, 0, 0, 0⟩] =
    compute_arguzz_preflight_offset
      [⟨3, 200, "", ""⟩, ⟨0, 100, "", ""⟩] [⟨0, 0, 100, 0, 0, 0⟩] := by
  exact c4_perm_invariance_nodup _ _ _ _ (List.Perm.swap _ _ _) (List.Perm.refl _)
    (by decide) (by decide)

/-- A4RegTxn record of a4/core/trace_parser.py: one register transaction
with its owning step. -/
structure A4RegTxn where
  txn_idx : Int
  step : Int
  addr : Int
  cycle : Int
  word : Int
  prev_cycle : Int
  prev_word : Int
  deriving Repr, DecidableEq

/-- USER_REGS_BASE word address constant (0xFFFF0080 / 4). -/
def USER_REGS_BASE : Int := 1073725472

namespace A4RegTxn

/-- is_write of A4RegTxn: odd internal cycle counter. -/
def is_write (t : A4RegTxn) : Bool := t.cycle % 2 == 1

/-- is_read of A4RegTxn: even internal cycle counter. -/
def is_read (t : A4RegTxn) : Bool := t.cycle % 2 == 0

/-- register_index of A4RegTxn (no range check in the source). -/
def register_index (t : A4RegTxn) : Int := t.addr - USER_REGS_BASE

end A4RegTxn

/-- A4Txn record of a4/core/trace_parser.py: one arbitrary memory or
register transaction. -/
structure A4Txn where
  txn_idx : Int
  addr : Int
  cycle : Int
  word : Int
  prev_cycle : Int
  prev_word : Int
  deriving Repr, DecidableEq

namespace A4Txn

/-- is_write of A4Txn. -/
def is_write (t : A4Txn) : Bool := t.cycle % 2 == 1

/-- is_read of A4Txn. -/
def is_read (t : A4Txn) : Bool := t.cycle % 2 == 0

/-- is_register of A4Txn: the address lies in the 32-register window at
USER_REGS_BASE. -/
def is_register (t : A4Txn) : Bool :=
  decide (USER_REGS_BASE ≤ t.addr) && decide (t.addr < USER_REGS_BASE + 32)

/-- register_index of A4Txn. -/
def register_index (t : A4Txn) : Option Int :=
  if t.is_register then some (t.addr - USER_REGS_BASE) else none

end A4Txn

/-- register_word_addr of a4/arguzz_dependent/mutations/pre_exec_reg_mod.py. -/
def register_word_addr (reg_idx : Int) : Int := USER_REGS_BASE + reg_idx

/-- The major_names table inside find_next_read_of_register_fast. -/
def major_names : List (Int × String) :=
  [(7, "CONTROL0"), (8, "ECALL0"), (9, "POSEIDON0"),
   (10, "POSEIDON1"), (11, "SHA0"), (12, "BIGINT0")]

/-- The skip reason returned by find_next_read_of_register_fast when the
only READ found sits in a non-instruction cycle; it names the
special-operation cycle type via major_names. -/
def special_cycle_reason (stepv major : Int) : String :=
  let major_name := (major_names.lookup major).getD ("major=" ++ toString major)
  "register READ found at step " ++ toString stepv ++ " but it is during " ++
  major_name ++
  " (non-instruction cycle); IsRead constraints not checked during special operations"

/-- The other skip reason of find_next_read_of_register_fast. -/
def never_read_reason : String :=
  "register not read during any instruction execution after injection point"

/-- The scan loop of find_next_read_of_register_fast over the sorted
transactions.  The accumulator carries the (step, major) of the first READ
found inside a non-instruction cycle, mirroring the three mutable locals of
the source. -/
def find_next_read_scan (target_addr injection_a4_step : Int)
    (step_to_cycle : Option (Int → Option A4CycleInfo)) :
    List A4RegTxn → Option (Int × Int) → Option A4RegTxn × String
  | [], acc =>
    match acc with
    | some (s, m) => (none, special_cycle_reason s m)
    | none => (none, never_read_reason)
  | txn :: rest, acc =>
    if txn.step < injection_a4_step then
      find_next_read_scan target_addr injection_a4_step step_to_cycle rest acc
    else if txn.is_read = false ∨ txn.addr ≠ target_addr then
      find_next_read_scan target_addr injection_a4_step step_to_cycle rest acc
    else
      match step_to_cycle with
      | some lookup_map =>
        match lookup_map txn.step with
        | some cycle_info =>
          if 6 < cycle_info.major then
            find_next_read_scan target_addr injection_a4_step step_to_cycle rest
              (match acc with
               | none => some (txn.step, cycle_info.major)
               | some x => some x)
          else (some txn, "")
        | none => (some txn, "")
      | none => (some txn, "")

/-- find_next_read_of_register_fast of
a4/arguzz_dependent/mutations/pre_exec_reg_mod.py.  The Python dict
step_to_cycle is modelled as an optional lookup function; sorted(...,
key=txn_idx) is modelled by a stable insertion sort on txn_idx. -/
def find_next_read_of_register_fast (reg_txns : List A4RegTxn)
    (injection_a4_step target_reg_idx : Int)
    (step_to_cycle : Option (Int → Option A4CycleInfo)) :
    Option A4RegTxn × String :=
  let target_addr := register_word_addr target_reg_idx
  let sorted_txns := reg_txns.insertionSort (fun t1 t2 => t1.txn_idx ≤ t2.txn_idx)
  find_next_read_scan target_addr injection_a4_step step_to_cycle sorted_txns none

/-- The scan loop of find_prev_write_to_register_fast. -/
def find_prev_write_scan (target_addr injection_a4_step : Int) :
    List A4RegTxn → Option A4RegTxn
  | [] => none
  | txn :: rest =>
    if injection_a4_step ≤ txn.step then
      find_prev_write_scan target_addr injection_a4_step rest
    else if txn.is_write = true ∧ txn.addr = target_addr then some txn
    else find_prev_write_scan target_addr injection_a4_step rest

/-- find_prev_write_to_register_fast of
a4/arguzz_dependent/mutations/pre_exec_reg_mod.py: sorted(...,
key=txn_idx, reverse=True) is modelled by a stable insertion sort on
descending txn_idx. -/
def find_prev_write_to_register_fast (reg_txns : List A4RegTxn)
    (injection_a4_step target_reg_idx : Int) : Option A4RegTxn :=
  let target_addr := register_word_addr target_reg_idx
  let sorted_txns := reg_txns.insertionSort (fun t1 t2 => t2.txn_idx ≤ t1.txn_idx)
  find_prev_write_scan target_addr injection_a4_step sorted_txns

/-- The step-to-cycle dict built by find_mutation_target in
pre_exec_reg_mod.py: later cycles with the same step overwrite earlier
ones. -/
def step_to_cycle_map (a4_cycles : List A4CycleInfo) : Int → Option A4CycleInfo :=
  fun s => a4_cycles.foldl (fun acc c => if c.step = s then some c else acc) none

/-- REGISTER_NAMES of the standalone mutation modules. -/
def REGISTER_NAMES : List String :=
  ["zero", "ra", "sp", "gp", "tp", "t0", "t1", "t2",
   "s0/fp", "s1", "a0", "a1", "a2", "a3", "a4", "a5",
   "a6", "a7", "s2", "s3", "s4", "s5", "s6", "s7",
   "s8", "s9", "s10", "s11", "t3", "t4", "t5", "t6"]

/-- Python REGISTER_NAMES[reg_idx] under the guard reg_idx < 32: a negative
index selects from the end of the list (indices below -32, which would raise
IndexError in Python, fall back to the empty string; register transactions
never carry such addresses). -/
def register_name_at (reg_idx : Int) : String :=
  if reg_idx < 32 then
    if 0 ≤ reg_idx then REGISTER_NAMES.getD reg_idx.toNat ""
    else REGISTER_NAMES.getD (32 + reg_idx).toNat ""
  else "x" ++ toString reg_idx

/-- The in-memory slice of InspectionData (a4/core/inspection_data.py) that
the resolvers read: the cycle list and the pre-collected register
transactions. -/
structure InspectionData where
  cycles : List A4CycleInfo
  reg_txns : List A4RegTxn
  deriving Repr, DecidableEq

namespace InspectionData

/-- get_cycle of InspectionData: the step-to-cycle dict, in which later
cycles with the same step overwrite earlier ones. -/
def get_cycle (data : InspectionData) (stepv : Int) : Option A4CycleInfo :=
  data.cycles.foldl (fun acc c => if c.step = stepv then some c else acc) none

/-- get_reg_txns_at_step of InspectionData: the step-to-transactions dict
groups reg_txns by step preserving insertion order, so the group of a step
is the sublist of transactions carrying that step. -/
def get_reg_txns_at_step (data : InspectionData) (stepv : Int) : List A4RegTxn :=
  data.reg_txns.filter (fun t => t.step == stepv)

end InspectionData

/-- CompOutModTarget of a4/standalone/mutations/comp_out_mod.py. -/
structure CompOutModTarget where
  step : Int
  cycle_idx : Int
  pc : Int
  major : Int
  minor : Int
  write_txn_idx : Int
  write_addr : Int
  register_idx : Int
  register_name : String
  original_value : Int
  deriving Repr, DecidableEq

/-- get_targets_at_step of a4/standalone/mutations/comp_out_mod.py
(COMP_OUT_MOD): at a compute-instruction step (major in 0..4), mutate the
last WRITE among the step's register transactions. -/
def comp_get_targets_at_step (stepv : Int) (data : InspectionData) :
    Option CompOutModTarget :=
  match data.get_cycle stepv with
  | none => none
  | some cycle =>
    if cycle.major ∈ ([0, 1, 2, 3, 4] : List Int) then
      let reg_txns := data.get_reg_txns_at_step stepv
      if reg_txns = [] then none
      else
        match (reg_txns.filter (fun t => t.is_write)).getLast? with
        | none => none
        | some write_txn =>
          some { step := stepv, cycle_idx := cycle.cycle_idx, pc := cycle.pc,
                 major := cycle.major, minor := cycle.minor,
                 write_txn_idx := write_txn.txn_idx, write_addr := write_txn.addr,
                 register_idx := write_txn.register_index,
                 register_name := register_name_at write_txn.register_index,
                 original_value := write_txn.word }
    else none

/-- LoadValModTarget of a4/standalone/mutations/load_val_mod.py. -/
structure LoadValModTarget where
  step : Int
  cycle_idx : Int
  pc : Int
  major : Int
  minor : Int
  write_txn_idx : Int
  write_addr : Int
  register_idx : Int
  register_name : String
  original_value : Int
  deriving Repr, DecidableEq

/-- get_targets_at_step of a4/standalone/mutations/load_val_mod.py
(LOAD_VAL_MOD): at a load step (major 5), mutate the last WRITE among the
step's register transactions. -/
def load_get_targets_at_step (stepv : Int) (data : InspectionData) :
    Option LoadValModTarget :=
  match data.get_cycle stepv with
  | none => none
  | some cycle =>
    if cycle.major = 5 then
      let reg_txns := data.get_reg_txns_at_step stepv
      if reg_txns = [] then none
      else
        match (reg_txns.filter (fun t => t.is_write)).getLast? with
        | none => none
        | some write_txn =>
          some { step := stepv, cycle_idx := cycle.cycle_idx, pc := cycle.pc,
                 major := cycle.major, minor := cycle.minor,
                 write_txn_idx := write_txn.txn_idx, write_addr := write_txn.addr,
                 register_idx := write_txn.register_index,
                 register_name := register_name_at write_txn.register_index,
                 original_value := write_txn.word }
    else none

/-- StoreOutModTarget of a4/standalone/mutations/store_out_mod.py. -/
structure StoreOutModTarget where
  step : Int
  cycle_idx : Int
  pc : Int
  major : Int
  minor : Int
  write_txn_idx : Int
  write_addr : Int
  memory_byte_addr : Int
  original_value : Int
  deriving Repr, DecidableEq

/-- The helper of store_out_mod.py selecting the last WRITE whose address
lies outside the register range (a memory write). -/
def find_memory_write (txns : List A4Txn) : Option A4Txn :=
  (txns.filter (fun t => t.is_write && !(t.is_register))).getLast?

/-- get_targets_at_step of a4/standalone/mutations/store_out_mod.py
(STORE_OUT_MOD): at a store step (major 6), mutate the last memory WRITE of
the step.  The source fetches the step's detailed transactions through a
subprocess (data.get_txns_for_step); that already-parsed list is taken here
as the txns argument. -/
def store_get_targets_at_step (stepv : Int) (data : InspectionData)
    (txns : List A4Txn) : Option StoreOutModTarget :=
  match data.get_cycle stepv with
  | none => none
  | some cycle =>
    if cycle.major = 6 then
      if txns = [] then none
      else
        match find_memory_write txns with
        | none => none
        | some write_txn =>
          some { step := stepv, cycle_idx := cycle.cycle_idx, pc := cycle.pc,
                 major := cycle.major, minor := cycle.minor,
                 write_txn_idx := write_txn.txn_idx, write_addr := write_txn.addr,
                 memory_byte_addr := write_txn.addr * 4,
                 original_value := write_txn.word }
    else none

/-- Inversion for the forward scan with a step-to-cycle dict provided: a
selected transaction comes from the list, is a READ of the target address at
or after the injection step, and its mapped cycle (when the dict knows its
step) is an instruction cycle. -/
theorem find_next_read_scan_some (ta inj : Int) (m : Int → Option A4CycleInfo) :
    ∀ (l : List A4RegTxn) (acc : Option (Int × Int)) (t : A4RegTxn) (r : String),
      find_next_read_scan ta inj (some m) l acc = (some t, r) →
      t ∈ l ∧ inj ≤ t.step ∧ t.is_read = true ∧ t.addr = ta ∧
        (∀ c, m t.step = some c → c.major ≤ 6) := by
  intro l
  induction l with
  | nil =>
    intro acc t r h
    simp only [find_next_read_scan] at h
    split at h <;> simp at h
  | cons txn rest ih =>
    intro acc t r h
    simp only [find_next_read_scan] at h
    split at h
    · obtain ⟨hm, hrest⟩ := ih acc t r h
      exact ⟨List.mem_cons_of_mem txn hm, hrest⟩
    · next hskip1 =>
      split at h
      · obtain ⟨hm, hrest⟩ := ih acc t r h
        exact ⟨List.mem_cons_of_mem txn hm, hrest⟩
      · next hskip2 =>
        push_neg at hskip2
        obtain ⟨hread, haddr⟩ := hskip2
        split at h
        · next cycle_info hci =>
          split at h
          · obtain ⟨hm, hrest⟩ := ih _ t r h
            exact ⟨List.mem_cons_of_mem txn hm, hrest⟩
          · next hmaj =>
            simp only [Prod.mk.injEq, Option.some.injEq] at h
            obtain ⟨ht, _⟩ := h
            subst ht
            refine ⟨List.mem_cons_self txn rest, by omega, ?_, haddr, ?_⟩
            · simpa using hread
            · intro c hc
              rw [hci] at hc
              injection hc with hc
              subst hc
              omega
        · next hci =>
          simp only [Prod.mk.injEq, Option.some.injEq] at h
          obtain ⟨ht, _⟩ := h
          subst ht
          refine ⟨List.mem_cons_self txn rest, by omega, ?_, haddr, ?_⟩
          · simpa using hread
          · intro c hc
            rw [hci] at hc
            cases hc

/-- When every candidate READ of the target register at or after the
injection step sits in a special-operation cycle (major above 6), the scan
ends with no target and a skip reason naming a special cycle. -/
theorem find_next_read_scan_all_special (ta inj : Int) (m : Int → Option A4CycleInfo) :
    ∀ (l : List A4RegTxn) (acc : Option (Int × Int)),
      (∀ t ∈ l, inj ≤ t.step → t.is_read = true → t.addr = ta →
        ∃ c, m t.step = some c ∧ 6 < c.major) →
      (∀ s mj, acc = some (s, mj) → 6 < mj) →
      ((∃ t ∈ l, inj ≤ t.step ∧ t.is_read = true ∧ t.addr = ta) ∨ acc.isSome = true) →
      ∃ s mj, find_next_read_scan ta inj (some m) l acc =
        (none, special_cycle_reason s mj) ∧ 6 < mj := by
  intro l
  induction l with
  | nil =>
    intro acc hall haccinv hsome
    rcases hsome with ⟨t, ht, _⟩ | hacc
    · simp at ht
    · match acc, hacc with
      | some (s, mj), _ =>
        exact ⟨s, mj, by simp [find_next_read_scan], haccinv s mj rfl⟩
  | cons txn rest ih =>
    intro acc hall haccinv hsome
    simp only [find_next_read_scan]
    split
    · next hlt =>
      refine ih acc (fun t ht => hall t (List.mem_cons_of_mem txn ht)) haccinv ?_
      rcases hsome with ⟨t, ht, hts, hrest⟩ | hacc
      · rcases List.mem_cons.mp ht with h1 | h1
        · subst h1; omega
        · exact Or.inl ⟨t, h1, hts, hrest⟩
      · exact Or.inr hacc
    · next hlt =>
      split
      · next hskip =>
        refine ih acc (fun t ht => hall t (List.mem_cons_of_mem txn ht)) haccinv ?_
        rcases hsome with ⟨t, ht, hts, htr, hta⟩ | hacc
        · rcases List.mem_cons.mp ht with h1 | h1
          · subst h1
            rcases hskip with h2 | h2
            · rw [htr] at h2; cases h2
            · exact absurd hta h2
          · exact Or.inl ⟨t, h1, hts, htr, hta⟩
        · exact Or.inr hacc
      · next hskip =>
        push_neg at hskip
        obtain ⟨hread, haddr⟩ := hskip
        have hread2 : txn.is_read = true := by simpa using hread
        obtain ⟨c, hc, hcm⟩ :=
          hall txn (List.mem_cons_self txn rest) (by omega) hread2 haddr
        simp only [hc, if_pos hcm]
        refine ih _ (fun t ht => hall t (List.mem_cons_of_mem txn ht)) ?_ ?_
        · intro s mj hsm
          match acc, hsm with
          | none, hsm =>
            simp at hsm
            omega
          | some (s0, m0), hsm =>
            simp at hsm
            have := haccinv s0 m0 rfl
            omega
        · refine Or.inr ?_
          match acc with
          | none => simp
          | some x => simp

/-- Inversion for the backward scan: a selected transaction comes from the
list, is a WRITE of the target address, and sits strictly before the
injection step. -/
theorem find_prev_write_scan_some (ta inj : Int) :
    ∀ (l : List A4RegTxn) (t : A4RegTxn),
      find_prev_write_scan ta inj l = some t →
      t ∈ l ∧ t.step < inj ∧ t.is_write = true ∧ t.addr = ta := by
  intro l
  induction l with
  | nil => intro t h; simp [find_prev_write_scan] at h
  | cons txn rest ih =>
    intro t h
    simp only [find_prev_write_scan] at h
    split at h
    · obtain ⟨hm, hrest⟩ := ih t h
      exact ⟨List.mem_cons_of_mem txn hm, hrest⟩
    · next hge =>
      split at h
      · next hw =>
        injection h with h
        subst h
        exact ⟨List.mem_cons_self txn rest, by omega, hw.1, hw.2⟩
      · obtain ⟨hm, hrest⟩ := ih t h
        exact ⟨List.mem_cons_of_mem txn hm, hrest⟩

/-- C6: in the next_read strategy (with the step-to-cycle dict built from the
trace), any selected transaction is a READ of the target register at or
after the injection step whose mapped cycle is an instruction cycle (major
at most 6) — READs inside special-operation cycles are never selected — and
when every candidate READ sits in a special-operation cycle, the resolver
returns no target with a skip reason naming a special cycle (major above
6). -/
theorem c6_next_read_special_cycles (reg_txns : List A4RegTxn) (inj idx : Int)
    (m : Int → Option A4CycleInfo) :
    (∀ t r, find_next_read_of_register_fast reg_txns inj idx (some m) = (some t, r) →
      inj ≤ t.step ∧ t.is_read = true ∧ t.addr = register_word_addr idx ∧
        ∀ c, m t.step = some c → c.major ≤ 6) ∧
    ((∀ t ∈ reg_txns, inj ≤ t.step → t.is_read = true →
        t.addr = register_word_addr idx → ∃ c, m t.step = some c ∧ 6 < c.major) →
      (∃ t ∈ reg_txns, inj ≤ t.step ∧ t.is_read = true ∧
        t.addr = register_word_addr idx) →
      ∃ s mj, find_next_read_of_register_fast reg_txns inj idx (some m) =
        (none, special_cycle_reason s mj) ∧ 6 < mj) := by
  have hperm := List.perm_insertionSort
    (fun t1 t2 : A4RegTxn => t1.txn_idx ≤ t2.txn_idx) reg_txns
  constructor
  · intro t r h
    obtain ⟨hm, hrest⟩ := find_next_read_scan_some (register_word_addr idx) inj m _ _ t r h
    exact hrest
  · intro hall hex
    refine find_next_read_scan_all_special (register_word_addr idx) inj m _ none
      (fun t ht => hall t (hperm.mem_iff.mp ht)) (fun s mj h => by cases h) ?_
    obtain ⟨t, ht, hrest⟩ := hex
    exact Or.inl ⟨t, hperm.mem_iff.mpr ht, hrest⟩

/-- C6, witness: a next_read fault on register s3 (index 19) whose only
subsequent READ at or after the injection step sits in a Poseidon hashing
cycle (major 9) yields no target. -/
theorem c6_next_read_special_cycles_witness :
    (find_next_read_of_register_fast [⟨0, 40, USER_REGS_BASE + 19, 2, 5, 1, 5⟩] 10 19
      (some (step_to_cycle_map [⟨0, 40, 0, 0, 9, 0⟩]))).1 = none := by
  obtain ⟨s, mj, heq, _⟩ :=
    (c6_next_read_special_cycles [⟨0, 40, USER_REGS_BASE + 19, 2, 5, 1, 5⟩] 10 19
      (step_to_cycle_map [⟨0, 40, 0, 0, 9, 0⟩])).2
      (by
        intro t ht h1 h2 h3
        simp at ht
        subst ht
        exact ⟨⟨0, 40, 0, 0, 9, 0⟩, rfl, by decide⟩)
      ⟨⟨0, 40, USER_REGS_BASE + 19, 2, 5, 1, 5⟩, by simp, by decide, by decide, by decide⟩
  rw [heq]

/-- C10: the two pre-execution-register scan strategies treat the injection
step asymmetrically: next_read only selects READs with step at least the
injection step (a READ at exactly the injection step is eligible, as the
concrete boundary case shows), while prev_write only selects WRITEs with
step strictly below it (a WRITE at exactly the injection step is never
selected, as the concrete boundary case shows). -/
theorem c10_injection_step_asymmetry :
    (∀ (reg_txns : List A4RegTxn) (inj idx : Int) (m : Int → Option A4CycleInfo)
        (t : A4RegTxn) (r : String),
      find_next_read_of_register_fast reg_txns inj idx (some m) = (some t, r) →
        inj ≤ t.step) ∧
    (∀ (reg_txns : List A4RegTxn) (inj idx : Int) (t : A4RegTxn),
      find_prev_write_to_register_fast reg_txns inj idx = some t → t.step < inj) ∧
    find_next_read_of_register_fast [⟨0, 10, USER_REGS_BASE + 3, 2, 5, 1, 5⟩] 10 3
      (some (step_to_cycle_map [⟨0, 10, 0, 0, 0, 0⟩])) =
      (some ⟨0, 10, USER_REGS_BASE + 3, 2, 5, 1, 5⟩, "") ∧
    find_prev_write_to_register_fast [⟨0, 10, USER_REGS_BASE + 3, 1, 5, 0, 5⟩] 10 3 =
      none := by
  refine ⟨?_, ?_, by decide, by decide⟩
  · intro reg_txns inj idx m t r h
    exact (find_next_read_scan_some (register_word_addr idx) inj m _ _ t r h).2.1
  · intro reg_txns inj idx t h
    exact (find_prev_write_scan_some (register_word_addr idx) inj _ t h).2.1

/-- C10, witness: the first part applied at the boundary instance of the
third part gives that the selected READ sits at the injection step. -/
theorem c10_injection_step_asymmetry_witness :
    (10 : Int) ≤ (⟨0, 10, USER_REGS_BASE + 3, 2, 5, 1, 5⟩ : A4RegTxn).step := by
  have h := c10_injection_step_asymmetry
  exact h.1 [⟨0, 10, USER_REGS_BASE + 3, 2, 5, 1, 5⟩] 10 3
    (step_to_cycle_map [⟨0, 10, 0, 0, 0, 0⟩]) _ "" h.2.2.1

theorem getLast?_mem_of_eq {α : Type} {l : List α} {a : α}
    (h : l.getLast? = some a) : a ∈ l := by
  induction l with
  | nil => simp at h
  | cons x xs ih =>
    cases xs with
    | nil =>
      simp [List.getLast?] at h
      simp [h]
    | cons y ys =>
      rw [List.getLast?_cons_cons] at h
      exact List.mem_cons_of_mem x (ih h)

/-- C7: the Compute-Output and Load-Value resolvers select the last WRITE
among the step's register transactions, the Store-Output resolver selects
the last WRITE whose address lies outside the register range, and each
returns no target when no WRITE with its address-range property exists at
the step. -/
theorem c7_last_write_selection (stepv : Int) (data : InspectionData)
    (txns : List A4Txn) :
    (∀ tgt, comp_get_targets_at_step stepv data = some tgt →
      ∃ w, ((data.get_reg_txns_at_step stepv).filter
          (fun t => t.is_write)).getLast? = some w ∧
        tgt.write_txn_idx = w.txn_idx ∧ tgt.write_addr = w.addr ∧
        w.is_write = true) ∧
    ((data.get_reg_txns_at_step stepv).filter (fun t => t.is_write) = [] →
      comp_get_targets_at_step stepv data = none) ∧
    (∀ tgt, load_get_targets_at_step stepv data = some tgt →
      ∃ w, ((data.get_reg_txns_at_step stepv).filter
          (fun t => t.is_write)).getLast? = some w ∧
        tgt.write_txn_idx = w.txn_idx ∧ tgt.write_addr = w.addr ∧
        w.is_write = true) ∧
    ((data.get_reg_txns_at_step stepv).filter (fun t => t.is_write) = [] →
      load_get_targets_at_step stepv data = none) ∧
    (∀ tgt, store_get_targets_at_step stepv data txns = some tgt →
      ∃ w, (txns.filter (fun t => t.is_write && !(t.is_register))).getLast? = some w ∧
        tgt.write_txn_idx = w.txn_idx ∧ tgt.write_addr = w.addr ∧
        w.is_write = true ∧ w.is_register = false) ∧
    (txns.filter (fun t => t.is_write && !(t.is_register)) = [] →
      store_get_targets_at_step stepv data txns = none) := by
  refine ⟨?_, ?_, ?_, ?_, ?_, ?_⟩
  · intro tgt h
    unfold comp_get_targets_at_step at h
    simp only [] at h
    split at h
    · cases h
    · split at h
      · split at h
        · cases h
        · split at h
          · cases h
          · next w hw =>
            injection h with h
            subst h
            have hmem := getLast?_mem_of_eq hw
            have := (List.mem_filter.mp hmem).2
            exact ⟨w, hw, rfl, rfl, this⟩
      · cases h
  · intro hfil
    unfold comp_get_targets_at_step
    simp only []
    split
    · rfl
    · split
      · split
        · rfl
        · rw [hfil]
          rfl
      · rfl
  · intro tgt h
    unfold load_get_targets_at_step at h
    simp only [] at h
    split at h
    · cases h
    · split at h
      · split at h
        · cases h
        · split at h
          · cases h
          · next w hw =>
            injection h with h
            subst h
            have hmem := getLast?_mem_of_eq hw
            have := (List.mem_filter.mp hmem).2
            exact ⟨w, hw, rfl, rfl, this⟩
      · cases h
  · intro hfil
    unfold load_get_targets_at_step
    simp only []
    split
    · rfl
    · split
      · split
        · rfl
        · rw [hfil]
          rfl
      · rfl
  · intro tgt h
    unfold store_get_targets_at_step find_memory_write at h
    split at h
    · cases h
    · split at h
      · split at h
        · cases h
        · split at h
          · cases h
          · next w hw =>
            injection h with h
            subst h
            have hmem := getLast?_mem_of_eq hw
            have hfil := (List.mem_filter.mp hmem).2
            simp at hfil
            exact ⟨w, hw, rfl, rfl, hfil.1, hfil.2⟩
      · cases h
  · intro hfil
    unfold store_get_targets_at_step find_memory_write
    split
    · rfl
    · split
      · split
        · rfl
        · rw [hfil]
          rfl
      · rfl

/-- C7, witness: with no register WRITE at the step (the only register
transaction is a READ), the Compute-Output resolver returns no target. -/
theorem c7_last_write_selection_witness :
    comp_get_targets_at_step 5
      ⟨[⟨0, 5, 0x100, 0, 0, 0⟩], [⟨3, 5, USER_REGS_BASE + 10, 2, 42, 0, 7⟩]⟩ =
      none := by
  exact (c7_last_write_selection 5
    ⟨[⟨0, 5, 0x100, 0, 0, 0⟩], [⟨3, 5, USER_REGS_BASE + 10, 2, 42, 0, 7⟩]⟩ []).2.1
    (by decide)
